import Mathlib

/-!
Shallow embedding of the crawl-orchestration core of `crowlet`
(`pkg/crawler/crawl.go`) and proofs about its statistics aggregation,
link-expansion policy and final result determination.

Modelling conventions:
* Go `int` and `time.Duration` (an `int64` nanosecond count) are modelled as
  `Int`; the programs under study only add, compare, multiply and divide
  counts and durations, and overflow of 64-bit counters is outside the scope
  of the properties treated here.  Go integer division truncates toward
  zero, which is `Int.div`.
* Go maps (`map[int]int`, `map[string][]string`) are modelled as association
  lists built by the same sequence of insertions the code performs; a Go map
  read of an absent key yields the zero value, which the lookup functions
  reproduce.
* A Go run-time panic (integer division by zero in `MergeCrawlStats`) is
  modelled by an `Option` result: `none` is the panic.
* The streaming channel consumed by `crawlUrls` is modelled as the list of
  results it delivers before closing; the HTTP getter is an explicit
  function parameter (`getter`) standing for `ConcurrentHTTPGetter`.
-/

namespace Crowlet

/-- Link type tag.  Modelled from the spec: the `Link` shape (`§3`) consumed
by `crawlLinks` is declared outside the file under study; its type tag ranges
over `{Hyperlink, Image}`. -/
inductive LinkType where
  | Hyperlink
  | Image
  deriving DecidableEq, Repr

/-- Modelled from the spec: one discovered reference inside a fetched page
(`§3`): target URL (already rendered to a string, as the code only uses
`link.TargetURL.String()`), a type tag, and whether the target is outside the
crawled host. -/
structure Link where
  TargetURL : String
  type : LinkType
  IsExternal : Bool
  deriving DecidableEq, Repr

/-- Modelled from the spec: a `FetchOutcome` (`§6`) as consumed by
`updateCrawlStats` and `crawlLinks`: source URL, status code, an optional
server-timing value (`Timing = none` models a `nil` `Result`, in which case
the code uses an elapsed time of zero; `some d` pre-applies
`result.Result.Total(result.EndTime)`), and the links extracted from the
body.  The declaring file (`HTTPResponse`) is not under study. -/
structure HTTPResponse where
  URL : String
  StatusCode : Int
  Timing : Option Int
  Links : List Link
  deriving DecidableEq, Repr

/-- `CrawlResult` from `crawl.go`: the reported outcome of one fetched URL. -/
structure CrawlResult where
  URL : String
  StatusCode : Int
  Time : Int
  LinkingURLs : List String
  deriving DecidableEq, Repr

/-- Association-list model of Go's `map[int]int`. -/
abbrev StatusMap := List (Int × Int)

/-- Reading `m[k]` from a Go `map[int]int`: the stored value, or the zero
value `0` when the key is absent. -/
def scLookup (m : StatusMap) (k : Int) : Int :=
  match m with
  | [] => 0
  | (k', v) :: rest => if k' = k then v else scLookup rest k

/-- The Go idiom `m[k] = m[k] + v`: add `v` to the entry for `k`, creating
the entry when absent. -/
def scAdd (m : StatusMap) (k v : Int) : StatusMap :=
  match m with
  | [] => [(k, v)]
  | (k', v') :: rest => if k' = k then (k', v' + v) :: rest else (k', v') :: scAdd rest k v

/-- Sum of the values of a `map[int]int`. -/
def scSum (m : StatusMap) : Int :=
  (m.map (fun p => p.2)).sum

/-- Key-wise sum of the values stored for `k` (a Go map holds each key once,
so on reachable maps this equals `scLookup`; it is the quantity the merge
loops accumulate). -/
def scEntrySum (m : StatusMap) (k : Int) : Int :=
  ((m.filter (fun p => p.1 = k)).map (fun p => p.2)).sum

/-- The two `range` loops of `MergeCrawlStats`: fold every entry of `l` into
`m` with `stats.StatusCodes[key] = stats.StatusCodes[key] + value`. -/
def scFold (l : StatusMap) (m : StatusMap) : StatusMap :=
  l.foldl (fun acc p => scAdd acc p.1 p.2) m

/-- `CrawlStats` from `crawl.go`. -/
structure CrawlStats where
  Total : Int
  StatusCodes : StatusMap
  Average200Time : Int
  Max200Time : Int
  Non200Urls : List CrawlResult
  deriving DecidableEq, Repr

/-- `MergeCrawlStats` from `crawl.go` (lines 50-81).  The result is `none`
exactly when the Go function panics: when one input has a nonzero
`Average200Time` but the merged `StatusCodes[200]` is zero, the expression
`total200ns / int64(stats.StatusCodes[200])` divides by zero. -/
def MergeCrawlStats (statsA statsB : CrawlStats) : Option CrawlStats :=
  let total := statsA.Total + statsB.Total
  let max200 := if statsA.Max200Time > statsB.Max200Time then statsA.Max200Time
                else statsB.Max200Time
  let sc := scFold statsB.StatusCodes (scFold statsA.StatusCodes [])
  let non200 := statsA.Non200Urls ++ statsB.Non200Urls
  if statsA.Average200Time ≠ 0 ∨ statsB.Average200Time ≠ 0 then
    let total200ns := statsA.Average200Time * scLookup statsA.StatusCodes 200 +
      statsB.Average200Time * scLookup statsB.StatusCodes 200
    if scLookup sc 200 = 0 then none
    else some ⟨total, sc, Int.tdiv total200ns (scLookup sc 200), max200, non200⟩
  else
    some ⟨total, sc, 0, max200, non200⟩

/-- `updateCrawlStats` from `crawl.go` (lines 235-259), with the in-place
mutation of `stats` and `*total200Time` made explicit: returns the updated
stats and the updated running success-time sum. -/
def updateCrawlStats (result : HTTPResponse) (stats : CrawlStats)
    (total200Time : Int) : CrawlStats × Int :=
  let statusCode := result.StatusCode
  let serverTime : Int :=
    match result.Timing with
    | none => 0
    | some d => d
  let stats1 : CrawlStats :=
    { stats with
        Total := stats.Total + 1
        StatusCodes := scAdd stats.StatusCodes statusCode 1 }
  if statusCode = 200 then
    let stats2 := if serverTime > stats1.Max200Time then
        { stats1 with Max200Time := serverTime }
      else stats1
    (stats2, total200Time + serverTime)
  else
    ({ stats1 with
        Non200Urls := stats1.Non200Urls ++
          [⟨result.URL, statusCode, serverTime, []⟩] },
     total200Time)

/-- The zero value of `CrawlStats` as `crawlUrls` initialises it (an empty
`StatusCodes` map). -/
def emptyStats : CrawlStats := ⟨0, [], 0, 0, []⟩

/-- The consumption loop of `crawlUrls` (lines 222-232): fold every streamed
result into the stats and the running success-time sum, starting from the
zero stats and a zero sum. -/
def foldOutcomes (rs : List HTTPResponse) : CrawlStats × Int :=
  rs.foldl (fun acc r => updateCrawlStats r acc.1 acc.2) (emptyStats, 0)

/-- `CrawlLinksConfig` from `crawl.go`. -/
structure CrawlLinksConfig where
  CrawlExternalLinks : Bool
  CrawlHyperlinks : Bool
  CrawlImages : Bool
  deriving DecidableEq, Repr

/-- `HTTPConfig` restricted to the only field `crawl.go` reads or writes
(`ParseLinks`); the transport-level fields are opaque to the orchestration
core. -/
structure HTTPConfig where
  ParseLinks : Bool
  deriving DecidableEq, Repr

/-- `CrawlConfig` from `crawl.go`.  The `HTTPGetter` handle is passed as an
explicit function argument instead (see `Getter`); `Host` is never read by
the orchestration code but kept for shape fidelity. -/
structure CrawlConfig where
  Throttle : Int
  Host : String
  HTTP : HTTPConfig
  Links : CrawlLinksConfig
  deriving DecidableEq, Repr

/-- The external `ConcurrentHTTPGetter.ConcurrentHTTPGet` collaborator: for
given URLs, HTTP configuration and throttle it yields the finite sequence of
results the channel delivers before closing.  Early cancellation is modelled
by the oracle returning a shorter sequence; the quit channel itself carries
no further information used by this core. -/
abbrev Getter := List String → HTTPConfig → Int → List HTTPResponse

/-- `crawlUrls` from `crawl.go` (lines 216-233): consume the result stream,
folding every result into the stats and the running success-time sum, and
collect the raw results. -/
def crawlUrls (getter : Getter) (urls : List String) (config : CrawlConfig) :
    List HTTPResponse × CrawlStats × Int :=
  let results := getter urls config.HTTP config.Throttle
  let folded := foldOutcomes results
  (results, folded.1, folded.2)

/-- Association-list model of Go's `map[string][]string`. -/
abbrev LinksMap := List (String × List String)

/-- Reading `m[k]` from a Go `map[string][]string`: the stored slice, or the
zero value `nil` (here `[]`) when the key is absent. -/
def luLookup (m : LinksMap) (k : String) : List String :=
  match m with
  | [] => []
  | (k', v) :: rest => if k' = k then v else luLookup rest k

/-- The Go idiom `m[k] = append(m[k], v)`: append `v` to the slice stored for
`k`, creating the entry when absent. -/
def luAppend (m : LinksMap) (k v : String) : LinksMap :=
  match m with
  | [] => [(k, [v])]
  | (k', vs) :: rest =>
    if k' = k then (k', vs ++ [v]) :: rest else (k', vs) :: luAppend rest k v

/-- The three `continue` filters of `crawlLinks` (lines 174-184): a link is
kept when it is not external-while-external-following-is-off, not a
hyperlink while hyperlink-following is off, and not an image while
image-following is off. -/
def keepLink (links : CrawlLinksConfig) (link : Link) : Bool :=
  if link.IsExternal ∧ ¬links.CrawlExternalLinks then false
  else if link.type = LinkType.Hyperlink ∧ ¬links.CrawlHyperlinks then false
  else if link.type = LinkType.Image ∧ ¬links.CrawlImages then false
  else true

/-- The map-building loops of `crawlLinks` (lines 171-188): for every link of
every first-phase result that passes the filters, append the result's source
URL to the entry of the link's target. -/
def buildLinkedUrlsSet (sourceResults : List HTTPResponse)
    (links : CrawlLinksConfig) : LinksMap :=
  sourceResults.foldl (fun m result =>
    result.Links.foldl (fun acc link =>
      if keepLink links link then luAppend acc link.TargetURL result.URL
      else acc) m) []

/-- Lines 171-192 of `crawl.go`: build the candidate map, then delete every
already-crawled source URL.  Go's `delete` removes the key; since a Go map
holds each key at most once, this is removing every entry with that key from
the association list. -/
def linkExpansion (sourceResults : List HTTPResponse)
    (sourceURLs : List String) (links : CrawlLinksConfig) : LinksMap :=
  sourceURLs.foldl (fun m u => m.filter (fun p => ¬p.1 = u))
    (buildLinkedUrlsSet sourceResults links)

/-- `crawlLinks` from `crawl.go` (lines 169-214): expand links into
second-phase URLs (map iteration order taken as entry order), crawl them
with link-following forced off, and annotate every non-200 result with the
URLs that linked to it. -/
def crawlLinks (getter : Getter) (sourceResults : List HTTPResponse)
    (sourceURLs : List String) (sourceConfig : CrawlConfig) :
    List HTTPResponse × CrawlStats × Int :=
  let linkedUrlsSet := linkExpansion sourceResults sourceURLs sourceConfig.Links
  let linkedUrls := linkedUrlsSet.map (fun p => p.1)
  let linksConfig : CrawlConfig :=
    { sourceConfig with
        HTTP := { sourceConfig.HTTP with ParseLinks := false }
        Links := ⟨false, false, false⟩ }
  let r := crawlUrls getter linkedUrls linksConfig
  let annotated :=
    { r.2.1 with
        Non200Urls := r.2.1.Non200Urls.map (fun cr =>
          { cr with LinkingURLs := luLookup linkedUrlsSet cr.URL }) }
  (r.1, annotated, r.2.2)

/-- Lines 155-158 of `crawl.go`: once all folds are done, set the average
from the success-time sum and the 200-count, leaving it untouched when the
200-count is zero. -/
def finalizeAverage (stats : CrawlStats) (server200TimeSum : Int) : CrawlStats :=
  let total200 := scLookup stats.StatusCodes 200
  if total200 > 0 then
    { stats with Average200Time := Int.tdiv server200TimeSum total200 }
  else stats

/-- `AsyncCrawl` from `crawl.go` (lines 138-167).  The result is `none` when
the underlying `MergeCrawlStats` panics (it never does on the stats this
function actually produces: see `AsyncCrawl_total_ok`).  The second component
of the result models the named return `stopped`, which the function body
never assigns, so it is the zero value `false`. -/
def AsyncCrawl (getter : Getter) (urls : List String) (config : CrawlConfig) :
    Option (CrawlStats × Bool × Option String) :=
  let config1 := if config.Throttle ≤ 0 then { config with Throttle := 1 } else config
  let config2 :=
    { config1 with
        HTTP := { config1.HTTP with
          ParseLinks := config1.Links.CrawlExternalLinks ||
            config1.Links.CrawlHyperlinks || config1.Links.CrawlImages } }
  let r := crawlUrls getter urls config2
  let merged : Option (CrawlStats × Int) :=
    if config2.HTTP.ParseLinks then
      let rl := crawlLinks getter r.1 urls config2
      (MergeCrawlStats r.2.1 rl.2.1).map (fun s => (s, r.2.2 + rl.2.2))
    else some (r.2.1, r.2.2)
  merged.map (fun p =>
    let stats := finalizeAverage p.1 p.2
    let err : Option String :=
      if stats.Total = 0 then some "No URL crawled"
      else if stats.Total ≠ scLookup stats.StatusCodes 200 then
        some "Some URLs had a different status code than 200"
      else none
    (stats, false, err))

/-! ## Lemmas on the status-code map -/

theorem scLookup_scAdd (m : StatusMap) (k v k' : Int) :
    scLookup (scAdd m k v) k' =
      if k = k' then scLookup m k' + v else scLookup m k' := by
  induction m with
  | nil =>
    simp only [scAdd, scLookup]
    split <;> simp_all
  | cons p rest ih =>
    obtain ⟨k₀, v₀⟩ := p
    simp only [scAdd]
    by_cases h1 : k₀ = k
    · subst h1
      by_cases h2 : k₀ = k'
      · subst h2; simp [scLookup]
      · simp [scLookup, h2, Ne.symm h2]
    · by_cases h2 : k₀ = k'
      · subst h2
        have : ¬k = k₀ := fun h => h1 h.symm
        simp [scLookup, this, h1]
      · simp [scLookup, h1, h2, ih]

theorem scSum_scAdd (m : StatusMap) (k v : Int) :
    scSum (scAdd m k v) = scSum m + v := by
  induction m with
  | nil => simp [scAdd, scSum]
  | cons p rest ih =>
    obtain ⟨k₀, v₀⟩ := p
    by_cases h : k₀ = k
    · subst h; simp [scAdd, scSum]; ring
    · simp only [scAdd, h, if_false]
      simp [scSum] at ih ⊢
      omega

theorem scSum_scFold (l m : StatusMap) :
    scSum (scFold l m) = scSum m + scSum l := by
  induction l generalizing m with
  | nil => simp [scFold, scSum]
  | cons p rest ih =>
    simp only [scFold, List.foldl_cons] at ih ⊢
    rw [ih (scAdd m p.1 p.2), scSum_scAdd]
    simp [scSum]
    ring

theorem scLookup_scFold (l m : StatusMap) (k : Int) :
    scLookup (scFold l m) k = scLookup m k + scEntrySum l k := by
  induction l generalizing m with
  | nil => simp [scFold, scEntrySum]
  | cons p rest ih =>
    simp only [scFold, List.foldl_cons] at ih ⊢
    rw [ih (scAdd m p.1 p.2), scLookup_scAdd]
    by_cases h : p.1 = k
    · simp [scEntrySum, List.filter_cons, h]
      ring
    · simp [scEntrySum, List.filter_cons, h]

theorem scEntrySum_nil (k : Int) : scEntrySum [] k = 0 := rfl

/-- Both branches of `MergeCrawlStats` build the same `Total`, `StatusCodes`,
`Max200Time` and `Non200Urls`. -/
theorem mergeCrawlStats_some_fields (a b s : CrawlStats)
    (h : MergeCrawlStats a b = some s) :
    s.Total = a.Total + b.Total ∧
    s.StatusCodes = scFold b.StatusCodes (scFold a.StatusCodes []) ∧
    s.Max200Time = (if a.Max200Time > b.Max200Time then a.Max200Time
      else b.Max200Time) ∧
    s.Non200Urls = a.Non200Urls ++ b.Non200Urls := by
  simp only [MergeCrawlStats] at h
  by_cases hc : a.Average200Time ≠ 0 ∨ b.Average200Time ≠ 0
  · rw [if_pos hc] at h
    by_cases hz : scLookup (scFold b.StatusCodes (scFold a.StatusCodes [])) 200 = 0
    · rw [if_pos hz] at h
      exact absurd h (by simp)
    · rw [if_neg hz] at h
      simp only [Option.some.injEq] at h
      subst h
      exact ⟨rfl, rfl, rfl, rfl⟩
  · rw [if_neg hc] at h
    simp only [Option.some.injEq] at h
    subst h
    exact ⟨rfl, rfl, rfl, rfl⟩

/-- The merged average, in terms of the inputs. -/
theorem mergeCrawlStats_some_avg (a b s : CrawlStats)
    (h : MergeCrawlStats a b = some s) :
    s.Average200Time =
      if a.Average200Time ≠ 0 ∨ b.Average200Time ≠ 0 then
        Int.tdiv
          (a.Average200Time * scLookup a.StatusCodes 200 +
            b.Average200Time * scLookup b.StatusCodes 200)
          (scLookup (scFold b.StatusCodes (scFold a.StatusCodes [])) 200)
      else 0 := by
  simp only [MergeCrawlStats] at h
  by_cases hc : a.Average200Time ≠ 0 ∨ b.Average200Time ≠ 0
  · rw [if_pos hc] at h
    by_cases hz : scLookup (scFold b.StatusCodes (scFold a.StatusCodes [])) 200 = 0
    · rw [if_pos hz] at h
      exact absurd h (by simp)
    · rw [if_neg hz] at h
      simp only [Option.some.injEq] at h
      subst h
      simp [hc]
  · rw [if_neg hc] at h
    simp only [Option.some.injEq] at h
    subst h
    simp [hc]

/-- `MergeCrawlStats` panics exactly when an input carries a nonzero average
while the merged 200-count is zero. -/
theorem mergeCrawlStats_eq_none_iff (a b : CrawlStats) :
    MergeCrawlStats a b = none ↔
      ((a.Average200Time ≠ 0 ∨ b.Average200Time ≠ 0) ∧
        scLookup (scFold b.StatusCodes (scFold a.StatusCodes [])) 200 = 0) := by
  simp only [MergeCrawlStats]
  by_cases hc : a.Average200Time ≠ 0 ∨ b.Average200Time ≠ 0
  · rw [if_pos hc]
    by_cases hz : scLookup (scFold b.StatusCodes (scFold a.StatusCodes [])) 200 = 0
    · rw [if_pos hz]
      simp [hc, hz]
    · rw [if_neg hz]
      simp [hz]
  · rw [if_neg hc]
    simp [hc]

/-! ## C1 and C4 -/

/-- C1: for every pair of `CrawlStats` `a` and `b` for which
`MergeCrawlStats` returns a result, that result's `Total` is
`a.Total + b.Total` and its `Max200Time` is the maximum of the two inputs'
`Max200Time`. -/
theorem mergeCrawlStats_total_max (a b s : CrawlStats)
    (h : MergeCrawlStats a b = some s) :
    s.Total = a.Total + b.Total ∧
    s.Max200Time = max a.Max200Time b.Max200Time := by
  obtain ⟨h1, _, h3, _⟩ := mergeCrawlStats_some_fields a b s h
  refine ⟨h1, ?_⟩
  rw [h3, max_def]
  split <;> split <;> omega

theorem mergeCrawlStats_total_max_witness :
    (⟨3, [(200, 1), (404, 2)], 0, 5, []⟩ : CrawlStats).Total = 1 + 2 ∧
    (⟨3, [(200, 1), (404, 2)], 0, 5, []⟩ : CrawlStats).Max200Time = max 3 5 :=
  mergeCrawlStats_total_max ⟨1, [(200, 1)], 0, 3, []⟩ ⟨2, [(404, 2)], 0, 5, []⟩
    ⟨3, [(200, 1), (404, 2)], 0, 5, []⟩ (by decide)

/-- C4 counterexample: two stats whose 200-counts are both zero on which
`MergeCrawlStats` nevertheless hits the division by zero (returns `none`,
i.e. the Go code panics), because one of them carries a nonzero
`Average200Time`. -/
theorem mergeCrawlStats_div_by_zero :
    scLookup (CrawlStats.mk 0 [] 5 0 []).StatusCodes 200 = 0 ∧
    scLookup (CrawlStats.mk 0 [] 0 0 []).StatusCodes 200 = 0 ∧
    MergeCrawlStats ⟨0, [], 5, 0, []⟩ ⟨0, [], 0, 0, []⟩ = none := by
  decide

/-- C4 (amended): for every pair of `CrawlStats` whose 200-counts are both
zero and whose `Average200Time` fields are both zero — as is the case for
every stats value an actual pass produces — `MergeCrawlStats` avoids the
division and yields a zero `Average200Time`; merging two all-zero stats
yields the all-zero stats. -/
theorem mergeCrawlStats_zero_avg (a b : CrawlStats)
    (h200a : scLookup a.StatusCodes 200 = 0)
    (h200b : scLookup b.StatusCodes 200 = 0)
    (ha : a.Average200Time = 0) (hb : b.Average200Time = 0) :
    (MergeCrawlStats a b).map (fun s => s.Average200Time) = some 0 ∧
    (a = emptyStats → b = emptyStats → MergeCrawlStats a b = some emptyStats) := by
  have hcond : ¬(a.Average200Time ≠ 0 ∨ b.Average200Time ≠ 0) := by
    simp [ha, hb]
  constructor
  · unfold MergeCrawlStats
    rw [if_neg hcond]
    rfl
  · intro hae hbe
    subst hae hbe
    decide

theorem mergeCrawlStats_zero_avg_witness :
    (MergeCrawlStats emptyStats emptyStats).map (fun s => s.Average200Time) = some 0 ∧
    (emptyStats = emptyStats → emptyStats = emptyStats →
      MergeCrawlStats emptyStats emptyStats = some emptyStats) :=
  mergeCrawlStats_zero_avg emptyStats emptyStats (by decide) (by decide)
    (by decide) (by decide)

/-! ## C2: the `Total == sum(StatusCodes.values())` invariant -/

/-- C2: the invariant `Total = scSum StatusCodes` is preserved by every
aggregation operation: `updateCrawlStats` increments `Total` by 1 and
exactly one `StatusCodes` entry by 1, keeping the invariant, and
`MergeCrawlStats` of two stats satisfying the invariant satisfies it. -/
theorem crawlStats_total_invariant :
    (∀ (r : HTTPResponse) (stats : CrawlStats) (t : Int),
        stats.Total = scSum stats.StatusCodes →
        ((updateCrawlStats r stats t).1.Total = stats.Total + 1 ∧
         (updateCrawlStats r stats t).1.StatusCodes =
           scAdd stats.StatusCodes r.StatusCode 1 ∧
         (updateCrawlStats r stats t).1.Total =
           scSum (updateCrawlStats r stats t).1.StatusCodes)) ∧
    (∀ a b s : CrawlStats, a.Total = scSum a.StatusCodes →
        b.Total = scSum b.StatusCodes → MergeCrawlStats a b = some s →
        s.Total = scSum s.StatusCodes) := by
  constructor
  · intro r stats t hinv
    have hfields : (updateCrawlStats r stats t).1.Total = stats.Total + 1 ∧
        (updateCrawlStats r stats t).1.StatusCodes =
          scAdd stats.StatusCodes r.StatusCode 1 := by
      simp only [updateCrawlStats]
      by_cases h200 : r.StatusCode = 200
      · rw [if_pos h200]
        split <;> exact ⟨rfl, rfl⟩
      · rw [if_neg h200]
        exact ⟨rfl, rfl⟩
    refine ⟨hfields.1, hfields.2, ?_⟩
    rw [hfields.1, hfields.2, scSum_scAdd, hinv]
  · intro a b s ha hb h
    obtain ⟨h1, h2, _, _⟩ := mergeCrawlStats_some_fields a b s h
    rw [h1, h2, scSum_scFold, scSum_scFold]
    have hnil : scSum ([] : StatusMap) = 0 := rfl
    omega

theorem crawlStats_total_invariant_witness :
    ((updateCrawlStats ⟨"u", 200, some 3, []⟩ emptyStats 0).1.Total =
        emptyStats.Total + 1 ∧
     (updateCrawlStats ⟨"u", 200, some 3, []⟩ emptyStats 0).1.StatusCodes =
        scAdd emptyStats.StatusCodes
          (HTTPResponse.mk "u" 200 (some 3) []).StatusCode 1 ∧
     (updateCrawlStats ⟨"u", 200, some 3, []⟩ emptyStats 0).1.Total =
        scSum (updateCrawlStats ⟨"u", 200, some 3, []⟩ emptyStats 0).1.StatusCodes) ∧
    (CrawlStats.mk 2 [(200, 1), (404, 1)] 0 0 []).Total =
      scSum (CrawlStats.mk 2 [(200, 1), (404, 1)] 0 0 []).StatusCodes :=
  ⟨crawlStats_total_invariant.1 ⟨"u", 200, some 3, []⟩ emptyStats 0 (by decide),
   crawlStats_total_invariant.2 ⟨1, [(200, 1)], 0, 0, []⟩ ⟨1, [(404, 1)], 0, 0, []⟩
     ⟨2, [(200, 1), (404, 1)], 0, 0, []⟩ (by decide) (by decide) (by decide)⟩

/-! ## C7: commutativity of the merge -/

/-- Lookup of a key in the merged status-code map: the key-wise sum of the
two inputs' entries. -/
theorem scLookup_merged (a b : StatusMap) (k : Int) :
    scLookup (scFold b (scFold a [])) k = scEntrySum a k + scEntrySum b k := by
  rw [scLookup_scFold, scLookup_scFold]
  have : scLookup ([] : StatusMap) k = 0 := rfl
  omega

/-- C7: `MergeCrawlStats` is commutative field-for-field — on `Total`, on
`StatusCodes` read at any key `k`, on `Max200Time` and on `Average200Time` —
while `Non200Urls` is the order-preserving concatenation of the first
operand's list then the second's. -/
theorem mergeCrawlStats_comm (a b s : CrawlStats) (k : Int)
    (h : MergeCrawlStats a b = some s) :
    (MergeCrawlStats b a).map (fun x => x.Total) = some s.Total ∧
    (MergeCrawlStats b a).map (fun x => scLookup x.StatusCodes k) =
      some (scLookup s.StatusCodes k) ∧
    (MergeCrawlStats b a).map (fun x => x.Max200Time) = some s.Max200Time ∧
    (MergeCrawlStats b a).map (fun x => x.Average200Time) =
      some s.Average200Time ∧
    s.Non200Urls = a.Non200Urls ++ b.Non200Urls ∧
    (MergeCrawlStats b a).map (fun x => x.Non200Urls) =
      some (b.Non200Urls ++ a.Non200Urls) := by
  have habk : ∀ k' : Int, scLookup (scFold b.StatusCodes (scFold a.StatusCodes [])) k' =
      scLookup (scFold a.StatusCodes (scFold b.StatusCodes [])) k' := by
    intro k'
    rw [scLookup_merged, scLookup_merged]
    omega
  obtain ⟨s', hs'⟩ : ∃ s', MergeCrawlStats b a = some s' := by
    cases hm : MergeCrawlStats b a with
    | some s' => exact ⟨s', rfl⟩
    | none =>
      rw [mergeCrawlStats_eq_none_iff] at hm
      have : MergeCrawlStats a b = none := by
        rw [mergeCrawlStats_eq_none_iff]
        refine ⟨hm.1.symm, ?_⟩
        rw [habk 200]
        exact hm.2
      rw [this] at h
      exact absurd h (by simp)
  obtain ⟨ht, hsc, hmax, hnon⟩ := mergeCrawlStats_some_fields a b s h
  obtain ⟨ht', hsc', hmax', hnon'⟩ := mergeCrawlStats_some_fields b a s' hs'
  have havg := mergeCrawlStats_some_avg a b s h
  have havg' := mergeCrawlStats_some_avg b a s' hs'
  rw [hs']
  simp only [Option.map_some', Option.some.injEq]
  refine ⟨by omega, ?_, ?_, ?_, hnon, hnon'⟩
  · rw [hsc, hsc', habk k]
  · rw [hmax, hmax']
    split <;> split <;> omega
  · rw [havg, havg']
    by_cases hc : a.Average200Time ≠ 0 ∨ b.Average200Time ≠ 0
    · rw [if_pos hc, if_pos hc.symm, habk 200]
      ring_nf
    · rw [if_neg hc, if_neg (fun hx => hc hx.symm)]

theorem mergeCrawlStats_comm_witness :
    (MergeCrawlStats ⟨1, [(200, 1)], 6, 5, []⟩ ⟨1, [(200, 1)], 4, 3, [⟨"x", 500, 2, []⟩]⟩).map
        (fun x => x.Total) =
      some (CrawlStats.mk 2 [(200, 2)] 5 5 [⟨"x", 500, 2, []⟩]).Total ∧
    (MergeCrawlStats ⟨1, [(200, 1)], 6, 5, []⟩ ⟨1, [(200, 1)], 4, 3, [⟨"x", 500, 2, []⟩]⟩).map
        (fun x => scLookup x.StatusCodes 200) =
      some (scLookup (CrawlStats.mk 2 [(200, 2)] 5 5 [⟨"x", 500, 2, []⟩]).StatusCodes 200) ∧
    (MergeCrawlStats ⟨1, [(200, 1)], 6, 5, []⟩ ⟨1, [(200, 1)], 4, 3, [⟨"x", 500, 2, []⟩]⟩).map
        (fun x => x.Max200Time) =
      some (CrawlStats.mk 2 [(200, 2)] 5 5 [⟨"x", 500, 2, []⟩]).Max200Time ∧
    (MergeCrawlStats ⟨1, [(200, 1)], 6, 5, []⟩ ⟨1, [(200, 1)], 4, 3, [⟨"x", 500, 2, []⟩]⟩).map
        (fun x => x.Average200Time) =
      some (CrawlStats.mk 2 [(200, 2)] 5 5 [⟨"x", 500, 2, []⟩]).Average200Time ∧
    (CrawlStats.mk 2 [(200, 2)] 5 5 [⟨"x", 500, 2, []⟩]).Non200Urls =
      (CrawlStats.mk 1 [(200, 1)] 4 3 [⟨"x", 500, 2, []⟩]).Non200Urls ++
        (CrawlStats.mk 1 [(200, 1)] 6 5 []).Non200Urls ∧
    (MergeCrawlStats ⟨1, [(200, 1)], 6, 5, []⟩ ⟨1, [(200, 1)], 4, 3, [⟨"x", 500, 2, []⟩]⟩).map
        (fun x => x.Non200Urls) =
      some ((CrawlStats.mk 1 [(200, 1)] 6 5 []).Non200Urls ++
        (CrawlStats.mk 1 [(200, 1)] 4 3 [⟨"x", 500, 2, []⟩]).Non200Urls) :=
  mergeCrawlStats_comm ⟨1, [(200, 1)], 4, 3, [⟨"x", 500, 2, []⟩]⟩
    ⟨1, [(200, 1)], 6, 5, []⟩ ⟨2, [(200, 2)], 5, 5, [⟨"x", 500, 2, []⟩]⟩ 200
    (by decide)

/-! ## C10: outcomes with a missing timing result -/

/-- C10: an outcome whose timing result is absent (`nil` in Go) is folded
with an elapsed time of zero: on a 200 it contributes 0 to the success-time
sum and never raises `Max200Time` (which is never negative in a real pass),
and on a non-200 the recorded `CrawlResult` carries `Time = 0`. -/
theorem updateCrawlStats_nil_timing (r : HTTPResponse) (stats : CrawlStats)
    (t : Int) (hnil : r.Timing = none) (hmax : 0 ≤ stats.Max200Time) :
    (r.StatusCode = 200 →
      (updateCrawlStats r stats t).2 = t ∧
      (updateCrawlStats r stats t).1.Max200Time = stats.Max200Time) ∧
    (r.StatusCode ≠ 200 →
      (updateCrawlStats r stats t).1.Non200Urls =
        stats.Non200Urls ++ [⟨r.URL, r.StatusCode, 0, []⟩]) := by
  constructor
  · intro h200
    simp only [updateCrawlStats, hnil, if_pos h200]
    have hgt : ¬((0 : Int) > stats.Max200Time) := by omega
    rw [if_neg hgt]
    exact ⟨by omega, rfl⟩
  · intro h200
    simp only [updateCrawlStats, hnil, if_neg h200]

theorem updateCrawlStats_nil_timing_witness :
    (((HTTPResponse.mk "u" 200 none []).StatusCode = 200 →
      (updateCrawlStats ⟨"u", 200, none, []⟩ ⟨1, [(200, 1)], 0, 4, []⟩ 9).2 = 9 ∧
      (updateCrawlStats ⟨"u", 200, none, []⟩ ⟨1, [(200, 1)], 0, 4, []⟩ 9).1.Max200Time =
        (CrawlStats.mk 1 [(200, 1)] 0 4 []).Max200Time) ∧
     ((HTTPResponse.mk "u" 200 none []).StatusCode ≠ 200 →
      (updateCrawlStats ⟨"u", 200, none, []⟩ ⟨1, [(200, 1)], 0, 4, []⟩ 9).1.Non200Urls =
        (CrawlStats.mk 1 [(200, 1)] 0 4 []).Non200Urls ++
          [⟨(HTTPResponse.mk "u" 200 none []).URL,
            (HTTPResponse.mk "u" 200 none []).StatusCode, 0, []⟩])) ∧
    (((HTTPResponse.mk "v" 404 none []).StatusCode = 200 →
      (updateCrawlStats ⟨"v", 404, none, []⟩ ⟨1, [(200, 1)], 0, 4, []⟩ 9).2 = 9 ∧
      (updateCrawlStats ⟨"v", 404, none, []⟩ ⟨1, [(200, 1)], 0, 4, []⟩ 9).1.Max200Time =
        (CrawlStats.mk 1 [(200, 1)] 0 4 []).Max200Time) ∧
     ((HTTPResponse.mk "v" 404 none []).StatusCode ≠ 200 →
      (updateCrawlStats ⟨"v", 404, none, []⟩ ⟨1, [(200, 1)], 0, 4, []⟩ 9).1.Non200Urls =
        (CrawlStats.mk 1 [(200, 1)] 0 4 []).Non200Urls ++
          [⟨(HTTPResponse.mk "v" 404 none []).URL,
            (HTTPResponse.mk "v" 404 none []).StatusCode, 0, []⟩])) :=
  ⟨updateCrawlStats_nil_timing ⟨"u", 200, none, []⟩ ⟨1, [(200, 1)], 0, 4, []⟩ 9
      rfl (by decide),
   updateCrawlStats_nil_timing ⟨"v", 404, none, []⟩ ⟨1, [(200, 1)], 0, 4, []⟩ 9
      rfl (by decide)⟩

/-! ## C5: folding N successes then finalizing -/

/-- The status-code map of a pass that has seen `n` 200-responses and
nothing else. -/
def sc200 (n : Nat) : StatusMap := if n = 0 then [] else [(200, (n : Int))]

/-- An outcome with status 200 and a present timing value. -/
def mk200 (p : String × Int) : HTTPResponse := ⟨p.1, 200, some p.2, []⟩

theorem scAdd_sc200 (n : Nat) : scAdd (sc200 n) 200 1 = sc200 (n + 1) := by
  cases n with
  | zero => rfl
  | succ k =>
    simp [sc200, scAdd]

theorem scLookup_sc200 (n : Nat) : scLookup (sc200 n) 200 = (n : Int) := by
  cases n with
  | zero => rfl
  | succ k => simp [sc200, scLookup]

theorem updateCrawlStats_mk200 (p : String × Int) (n : Nat) (m s0 : Int) :
    updateCrawlStats (mk200 p) ⟨(n : Int), sc200 n, 0, m, []⟩ s0 =
      (⟨((n + 1 : Nat) : Int), sc200 (n + 1), 0, max m p.2, []⟩, s0 + p.2) := by
  simp only [updateCrawlStats, mk200, eq_self_iff_true, if_true]
  rw [scAdd_sc200]
  have hcast : ((n + 1 : Nat) : Int) = (n : Int) + 1 := by push_cast; ring
  by_cases h : p.2 > m
  · rw [if_pos h]
    have hm : max m p.2 = p.2 := max_eq_right (le_of_lt h)
    rw [hm, hcast]
  · rw [if_neg h]
    have hm : max m p.2 = m := max_eq_left (by omega)
    rw [hm, hcast]

theorem foldOutcomes_mk200_inv (ps : List (String × Int)) (n : Nat) (m s0 : Int) :
    (ps.map mk200).foldl (fun acc r => updateCrawlStats r acc.1 acc.2)
      ((⟨(n : Int), sc200 n, 0, m, []⟩ : CrawlStats), s0) =
    (⟨((n + ps.length : Nat) : Int), sc200 (n + ps.length), 0,
        ps.foldl (fun acc p => max acc p.2) m, []⟩,
      s0 + (ps.map (fun p => p.2)).sum) := by
  induction ps generalizing n m s0 with
  | nil => simp
  | cons p rest ih =>
    simp only [List.map_cons, List.foldl_cons, updateCrawlStats_mk200]
    rw [ih (n + 1) (max m p.2) (s0 + p.2)]
    have hlen : n + 1 + rest.length = n + (p :: rest).length := by
      simp [List.length_cons]
      omega
    rw [hlen, Prod.mk.injEq]
    refine ⟨rfl, ?_⟩
    simp only [List.sum_cons]
    omega

theorem foldOutcomes_mk200 (ps : List (String × Int)) :
    foldOutcomes (ps.map mk200) =
      (⟨(ps.length : Int), sc200 ps.length, 0,
          ps.foldl (fun acc p => max acc p.2) 0, []⟩,
        (ps.map (fun p => p.2)).sum) := by
  have h := foldOutcomes_mk200_inv ps 0 0 0
  simp only [Nat.zero_add, Nat.cast_zero, zero_add] at h
  exact h

theorem foldl_max_spec (xs : List Int) (m : Int) :
    (xs.foldl max m = m ∨ xs.foldl max m ∈ xs) ∧
    m ≤ xs.foldl max m ∧ ∀ t ∈ xs, t ≤ xs.foldl max m := by
  induction xs generalizing m with
  | nil => exact ⟨Or.inl rfl, le_refl m, by simp⟩
  | cons x rest ih =>
    obtain ⟨hmem, hle, hall⟩ := ih (max m x)
    refine ⟨?_, ?_, ?_⟩
    · rcases hmem with h | h
      · rcases max_choice m x with hc | hc
        · exact Or.inl (by rw [List.foldl_cons, h, hc])
        · refine Or.inr ?_
          rw [List.foldl_cons, h, hc]
          exact List.mem_cons_self x rest
      · exact Or.inr (List.mem_cons_of_mem x h)
    · simp only [List.foldl_cons]
      exact le_trans (le_max_left m x) hle
    · intro t ht
      rcases List.mem_cons.mp ht with h | h
      · subst h
        exact le_trans (le_max_right m t) hle
      · exact hall t h

/-- C5: folding `N ≥ 1` outcomes with status 200 and (nonnegative) elapsed
times `t1..tN` into fresh stats and then finalizing yields
`Average200Time = (t1+...+tN) / N` (Go's truncating division) and
`Max200Time = max(ti)`. -/
theorem foldOutcomes_200_finalize (ps : List (String × Int)) (hne : ps ≠ [])
    (hpos : ∀ p ∈ ps, 0 ≤ p.2) :
    (finalizeAverage (foldOutcomes (ps.map mk200)).1
        (foldOutcomes (ps.map mk200)).2).Average200Time =
      Int.tdiv ((ps.map (fun p => p.2)).sum) (ps.length : Int) ∧
    (finalizeAverage (foldOutcomes (ps.map mk200)).1
        (foldOutcomes (ps.map mk200)).2).Max200Time ∈ ps.map (fun p => p.2) ∧
    ∀ t ∈ ps.map (fun p => p.2),
      t ≤ (finalizeAverage (foldOutcomes (ps.map mk200)).1
        (foldOutcomes (ps.map mk200)).2).Max200Time := by
  rw [foldOutcomes_mk200]
  have hlen : 0 < ps.length := List.length_pos.mpr hne
  have hfin : finalizeAverage
      ⟨(ps.length : Int), sc200 ps.length, 0,
        ps.foldl (fun acc p => max acc p.2) 0, []⟩
      ((ps.map (fun p => p.2)).sum) =
      ⟨(ps.length : Int), sc200 ps.length,
        Int.tdiv ((ps.map (fun p => p.2)).sum) (ps.length : Int),
        ps.foldl (fun acc p => max acc p.2) 0, []⟩ := by
    unfold finalizeAverage
    rw [scLookup_sc200]
    rw [if_pos (by exact_mod_cast hlen)]
  rw [hfin]
  have hfold : ps.foldl (fun acc p => max acc p.2) 0 =
      (ps.map (fun p => p.2)).foldl max 0 := by
    rw [List.foldl_map]
  obtain ⟨hmem, _, hall⟩ := foldl_max_spec (ps.map (fun p => p.2)) 0
  refine ⟨rfl, ?_, ?_⟩
  · simp only [hfold]
    rcases hmem with h | h
    · obtain ⟨q, qs, rfl⟩ := List.exists_cons_of_ne_nil hne
      have hq : q.2 ∈ (q :: qs).map (fun p => p.2) := by simp
      have h1 : q.2 ≤ ((q :: qs).map (fun p => p.2)).foldl max 0 := hall q.2 hq
      have h2 : 0 ≤ q.2 := hpos q (List.mem_cons_self q qs)
      rw [h] at h1 ⊢
      have : q.2 = 0 := by omega
      rw [← this]
      exact hq
    · exact h
  · intro t ht
    simp only [hfold]
    exact hall t ht

theorem foldOutcomes_200_finalize_witness :
    (finalizeAverage (foldOutcomes ([("a", 1), ("b", 3)].map mk200)).1
        (foldOutcomes ([("a", 1), ("b", 3)].map mk200)).2).Average200Time =
      Int.tdiv (([("a", 1), ("b", 3)].map (fun p => p.2)).sum)
        (([("a", 1), ("b", 3)] : List (String × Int)).length : Int) ∧
    (finalizeAverage (foldOutcomes ([("a", 1), ("b", 3)].map mk200)).1
        (foldOutcomes ([("a", 1), ("b", 3)].map mk200)).2).Max200Time ∈
      [("a", 1), ("b", 3)].map (fun p => p.2) ∧
    ∀ t ∈ [("a", 1), ("b", 3)].map (fun p => p.2),
      t ≤ (finalizeAverage (foldOutcomes ([("a", 1), ("b", 3)].map mk200)).1
        (foldOutcomes ([("a", 1), ("b", 3)].map mk200)).2).Max200Time :=
  foldOutcomes_200_finalize [("a", 1), ("b", 3)] (by decide) (by decide)

/-! ## C9: weighted merge average versus direct recomputation -/

theorem scEntrySum_not_mem (m : StatusMap) (k : Int)
    (h : k ∉ m.map Prod.fst) : scEntrySum m k = 0 := by
  induction m with
  | nil => rfl
  | cons p rest ih =>
    simp only [List.map_cons, List.mem_cons, not_or] at h
    have hp : ¬(p.1 = k) := fun he => h.1 he.symm
    simp only [scEntrySum, List.filter_cons, hp, decide_False, Bool.false_eq_true,
      if_false]
    exact ih h.2

theorem scEntrySum_eq_scLookup (m : StatusMap) (k : Int)
    (h : (m.map Prod.fst).Nodup) : scEntrySum m k = scLookup m k := by
  induction m with
  | nil => rfl
  | cons p rest ih =>
    simp only [List.map_cons, List.nodup_cons] at h
    by_cases hp : p.1 = k
    · have hk : k ∉ rest.map Prod.fst := hp ▸ h.1
      simp only [scEntrySum, List.filter_cons, hp, decide_True, if_true,
        List.map_cons, List.sum_cons, scLookup]
      have := scEntrySum_not_mem rest k hk
      simp only [scEntrySum] at this
      rw [this]
      simp [hp]
    · simp only [scEntrySum, List.filter_cons, hp, decide_False,
        Bool.false_eq_true, if_false, scLookup]
      exact ih h.2

theorem setAvg_self (s : CrawlStats) (x : Int) (h : s.Average200Time = x) :
    ({ s with Average200Time := x } : CrawlStats) = s := by
  cases s
  subst h
  rfl

theorem finalizeAverage_eq_self (s : CrawlStats) (sum : Int)
    (h : scLookup s.StatusCodes 200 > 0 →
      s.Average200Time = Int.tdiv sum (scLookup s.StatusCodes 200)) :
    finalizeAverage s sum = s := by
  unfold finalizeAverage
  by_cases hc : scLookup s.StatusCodes 200 > 0
  · rw [if_pos hc]
    exact setAvg_self s _ (h hc)
  · rw [if_neg hc]

/-- C9 counterexample: for first-phase times `[1, 2]` and second-phase times
`[0]`, the weighted merge of the two finalized averages yields 0, while the
direct recomputation from the combined success-time sum (what `AsyncCrawl`
does) yields 1 — the two are not equivalent, because each pass's finalized
average has already lost its division remainder. -/
theorem mergeAvg_direct_counterexample :
    (MergeCrawlStats
        (finalizeAverage (foldOutcomes ([("a1", 1), ("a2", 2)].map mk200)).1
          (foldOutcomes ([("a1", 1), ("a2", 2)].map mk200)).2)
        (finalizeAverage (foldOutcomes ([("b1", 0)].map mk200)).1
          (foldOutcomes ([("b1", 0)].map mk200)).2)).map
      (fun s => s.Average200Time) = some 0 ∧
    (MergeCrawlStats
        (finalizeAverage (foldOutcomes ([("a1", 1), ("a2", 2)].map mk200)).1
          (foldOutcomes ([("a1", 1), ("a2", 2)].map mk200)).2)
        (finalizeAverage (foldOutcomes ([("b1", 0)].map mk200)).1
          (foldOutcomes ([("b1", 0)].map mk200)).2)).map
      (fun s => (finalizeAverage s
        ((foldOutcomes ([("a1", 1), ("a2", 2)].map mk200)).2 +
          (foldOutcomes ([("b1", 0)].map mk200)).2)).Average200Time) = some 1 ∧
    (0 : Int) ≠ 1 := by
  decide

/-- C9 (amended): when each pass's finalized average is exact — its
`Average200Time` times its 200-count recovers its success-time sum, its
200-count is nonnegative and a zero 200-count forces a zero average, with
`StatusCodes` a proper map (no duplicate keys) — the weighted average
computed by `MergeCrawlStats` agrees with the direct recomputation from the
combined success-time sum: re-finalizing the merged stats with the combined
sum changes nothing.  (With truncating integer division the two can
otherwise differ: see the counterexample.) -/
theorem mergeAvg_eq_direct (a b : CrawlStats) (sumA sumB : Int)
    (hkA : (a.StatusCodes.map Prod.fst).Nodup)
    (hkB : (b.StatusCodes.map Prod.fst).Nodup)
    (hcA : 0 ≤ scLookup a.StatusCodes 200)
    (hcB : 0 ≤ scLookup b.StatusCodes 200)
    (hsA : a.Average200Time * scLookup a.StatusCodes 200 = sumA)
    (hsB : b.Average200Time * scLookup b.StatusCodes 200 = sumB)
    (h0A : scLookup a.StatusCodes 200 = 0 → a.Average200Time = 0)
    (h0B : scLookup b.StatusCodes 200 = 0 → b.Average200Time = 0) :
    MergeCrawlStats a b ≠ none ∧
    (MergeCrawlStats a b).map (fun s => finalizeAverage s (sumA + sumB)) =
      MergeCrawlStats a b := by
  have hd : scLookup (scFold b.StatusCodes (scFold a.StatusCodes [])) 200 =
      scLookup a.StatusCodes 200 + scLookup b.StatusCodes 200 := by
    rw [scLookup_merged, scEntrySum_eq_scLookup _ _ hkA,
      scEntrySum_eq_scLookup _ _ hkB]
  by_cases hc : a.Average200Time ≠ 0 ∨ b.Average200Time ≠ 0
  · have hdpos : 0 < scLookup a.StatusCodes 200 + scLookup b.StatusCodes 200 := by
      rcases hc with h | h
      · have : ¬scLookup a.StatusCodes 200 = 0 := fun hz => h (h0A hz)
        omega
      · have : ¬scLookup b.StatusCodes 200 = 0 := fun hz => h (h0B hz)
        omega
    have hnone : MergeCrawlStats a b ≠ none := by
      intro hn
      rw [mergeCrawlStats_eq_none_iff] at hn
      rw [hd] at hn
      omega
    obtain ⟨s, hm⟩ : ∃ s, MergeCrawlStats a b = some s := by
      cases hx : MergeCrawlStats a b with
      | none => exact absurd hx hnone
      | some s => exact ⟨s, rfl⟩
    refine ⟨hnone, ?_⟩
    rw [hm]
    simp only [Option.map_some', Option.some.injEq]
    apply finalizeAverage_eq_self
    intro _
    obtain ⟨_, hsc, _, _⟩ := mergeCrawlStats_some_fields a b s hm
    have havg := mergeCrawlStats_some_avg a b s hm
    rw [if_pos hc, hsA, hsB, hd] at havg
    rw [havg, hsc, hd]
  · push_neg at hc
    have hzA : sumA = 0 := by rw [← hsA, hc.1]; ring
    have hzB : sumB = 0 := by rw [← hsB, hc.2]; ring
    have hc' : ¬(a.Average200Time ≠ 0 ∨ b.Average200Time ≠ 0) := by
      simp [hc.1, hc.2]
    have hnone : MergeCrawlStats a b ≠ none := by
      intro hn
      rw [mergeCrawlStats_eq_none_iff] at hn
      exact hc' hn.1
    obtain ⟨s, hm⟩ : ∃ s, MergeCrawlStats a b = some s := by
      cases hx : MergeCrawlStats a b with
      | none => exact absurd hx hnone
      | some s => exact ⟨s, rfl⟩
    refine ⟨hnone, ?_⟩
    rw [hm]
    simp only [Option.map_some', Option.some.injEq]
    apply finalizeAverage_eq_self
    intro _
    have havg := mergeCrawlStats_some_avg a b s hm
    rw [if_neg hc'] at havg
    rw [havg, hzA, hzB]
    simp [Int.zero_tdiv]

theorem mergeAvg_eq_direct_witness :
    MergeCrawlStats ⟨2, [(200, 2)], 1, 2, []⟩ ⟨1, [(200, 1)], 0, 0, []⟩ ≠ none ∧
    (MergeCrawlStats ⟨2, [(200, 2)], 1, 2, []⟩ ⟨1, [(200, 1)], 0, 0, []⟩).map
        (fun s => finalizeAverage s (2 + 0)) =
      MergeCrawlStats ⟨2, [(200, 2)], 1, 2, []⟩ ⟨1, [(200, 1)], 0, 0, []⟩ :=
  mergeAvg_eq_direct ⟨2, [(200, 2)], 1, 2, []⟩ ⟨1, [(200, 1)], 0, 0, []⟩ 2 0
    (by decide) (by decide) (by decide) (by decide) (by decide) (by decide)
    (by decide) (by decide)

/-! ## C3 and C8: the final result determination of `AsyncCrawl` -/

theorem updateCrawlStats_avg (r : HTTPResponse) (s : CrawlStats) (t : Int) :
    (updateCrawlStats r s t).1.Average200Time = s.Average200Time := by
  simp only [updateCrawlStats]
  by_cases h200 : r.StatusCode = 200
  · rw [if_pos h200]
    split <;> rfl
  · rw [if_neg h200]

theorem foldl_update_avg (rs : List HTTPResponse) (acc : CrawlStats × Int) :
    (rs.foldl (fun acc r => updateCrawlStats r acc.1 acc.2) acc).1.Average200Time =
      acc.1.Average200Time := by
  induction rs generalizing acc with
  | nil => rfl
  | cons r rest ih =>
    rw [List.foldl_cons, ih]
    exact updateCrawlStats_avg r acc.1 acc.2

theorem foldOutcomes_avg (rs : List HTTPResponse) :
    (foldOutcomes rs).1.Average200Time = 0 :=
  foldl_update_avg rs (emptyStats, 0)

theorem crawlUrls_avg (getter : Getter) (urls : List String)
    (config : CrawlConfig) :
    (crawlUrls getter urls config).2.1.Average200Time = 0 :=
  foldOutcomes_avg (getter urls config.HTTP config.Throttle)

theorem crawlLinks_avg (getter : Getter) (rs : List HTTPResponse)
    (us : List String) (config : CrawlConfig) :
    (crawlLinks getter rs us config).2.1.Average200Time = 0 := by
  simp only [crawlLinks]
  exact crawlUrls_avg getter _ _

/-- Merging two averageless stats never panics. -/
theorem mergeCrawlStats_of_zero_avg (a b : CrawlStats)
    (ha : a.Average200Time = 0) (hb : b.Average200Time = 0) :
    ∃ s, MergeCrawlStats a b = some s := by
  cases hx : MergeCrawlStats a b with
  | some s => exact ⟨s, rfl⟩
  | none =>
    rw [mergeCrawlStats_eq_none_iff] at hx
    rcases hx.1 with h | h
    · exact absurd ha h
    · exact absurd hb h

/-- C3: for every crawl, `AsyncCrawl` returns (it never hits the merge
panic), and its error outcome is determined by the returned merged stats:
a "No URL crawled" error when `Total` is 0, a "Some URLs had a different
status code than 200" error when `Total` differs from `StatusCodes[200]`
(the full stats still being returned alongside), and no error otherwise. -/
theorem asyncCrawl_error_determination (getter : Getter) (urls : List String)
    (config : CrawlConfig) :
    ∃ stats stopped err,
      AsyncCrawl getter urls config = some (stats, stopped, err) ∧
      err = (if stats.Total = 0 then some "No URL crawled"
             else if stats.Total ≠ scLookup stats.StatusCodes 200 then
               some "Some URLs had a different status code than 200"
             else none) := by
  simp only [AsyncCrawl]
  split
  · split
    · obtain ⟨s, hs⟩ := mergeCrawlStats_of_zero_avg _ _
        (crawlUrls_avg getter urls _) (crawlLinks_avg getter _ urls _)
      rw [hs]
      exact ⟨_, _, _, rfl, rfl⟩
    · exact ⟨_, _, _, rfl, rfl⟩
  · split
    · obtain ⟨s, hs⟩ := mergeCrawlStats_of_zero_avg _ _
        (crawlUrls_avg getter urls _) (crawlLinks_avg getter _ urls _)
      rw [hs]
      exact ⟨_, _, _, rfl, rfl⟩
    · exact ⟨_, _, _, rfl, rfl⟩

/-- C8: the named return `stopped` of `AsyncCrawl` is never assigned by the
function body, so every returned triple carries `stopped = false` — also
for a run whose stream was cut short by cancellation, contradicting the
documented meaning of the flag. -/
theorem asyncCrawl_stopped_false (getter : Getter) (urls : List String)
    (config : CrawlConfig) (r : CrawlStats × Bool × Option String)
    (h : AsyncCrawl getter urls config = some r) : r.2.1 = false := by
  simp only [AsyncCrawl] at h
  rw [Option.map_eq_some'] at h
  obtain ⟨p, _, hf⟩ := h
  rw [← hf]

theorem asyncCrawl_stopped_false_witness :
    ((emptyStats, false, some "No URL crawled") :
      CrawlStats × Bool × Option String).2.1 = false :=
  asyncCrawl_stopped_false (fun _ _ _ => []) []
    ⟨1, "h", ⟨false⟩, ⟨false, false, false⟩⟩
    (emptyStats, false, some "No URL crawled") (by decide)

/-! ## C6: the link-expansion policy -/

/-- The source URLs of the results that reference target `t` through a link
passing the filters, in result order, one entry per reference. -/
def linkRefs (rs : List HTTPResponse) (links : CrawlLinksConfig) (t : String) :
    List String :=
  match rs with
  | [] => []
  | r :: rest =>
    (r.Links.filter (fun l => keepLink links l && (l.TargetURL == t))).map
      (fun _ => r.URL) ++ linkRefs rest links t

theorem luLookup_luAppend (m : LinksMap) (k v t : String) :
    luLookup (luAppend m k v) t =
      if k = t then luLookup m t ++ [v] else luLookup m t := by
  induction m with
  | nil =>
    simp only [luAppend, luLookup]
    split <;> simp
  | cons p rest ih =>
    obtain ⟨k₀, vs⟩ := p
    simp only [luAppend]
    by_cases h0 : k₀ = k
    · subst h0
      by_cases h1 : k₀ = t
      · subst h1
        simp [luLookup]
      · simp [luLookup, h1]
    · simp only [h0, if_false, luLookup]
      by_cases h1 : k₀ = t
      · subst h1
        have hk : ¬k = k₀ := fun he => h0 he.symm
        simp [luLookup, hk]
      · simp [luLookup, h1, ih]

theorem luLookup_foldLinks (ls : List Link) (u : String)
    (links : CrawlLinksConfig) (m : LinksMap) (t : String) :
    luLookup (ls.foldl (fun acc link =>
        if keepLink links link then luAppend acc link.TargetURL u else acc) m) t =
      luLookup m t ++
        (ls.filter (fun l => keepLink links l && (l.TargetURL == t))).map
          (fun _ => u) := by
  induction ls generalizing m with
  | nil => simp
  | cons l rest ih =>
    simp only [List.foldl_cons, List.filter_cons]
    by_cases hk : keepLink links l = true
    · rw [if_pos hk, ih, luLookup_luAppend]
      by_cases ht : l.TargetURL = t
      · have hb : (keepLink links l && (l.TargetURL == t)) = true := by
          simp [hk, ht]
        rw [if_pos ht, hb]
        simp
      · have hb : ¬((keepLink links l && (l.TargetURL == t)) = true) := by
          simp [ht]
        rw [if_neg ht]
        simp [hb]
    · rw [if_neg hk, ih]
      have hb : ¬((keepLink links l && (l.TargetURL == t)) = true) := by
        simp [hk]
      simp [hb]

theorem luLookup_build (rs : List HTTPResponse) (links : CrawlLinksConfig)
    (m : LinksMap) (t : String) :
    luLookup (rs.foldl (fun m result =>
        result.Links.foldl (fun acc link =>
          if keepLink links link then luAppend acc link.TargetURL result.URL
          else acc) m) m) t =
      luLookup m t ++ linkRefs rs links t := by
  induction rs generalizing m with
  | nil => simp [linkRefs]
  | cons r rest ih =>
    simp only [List.foldl_cons, linkRefs]
    rw [ih, luLookup_foldLinks]
    simp [List.append_assoc]

theorem luLookup_buildLinkedUrlsSet (rs : List HTTPResponse)
    (links : CrawlLinksConfig) (t : String) :
    luLookup (buildLinkedUrlsSet rs links) t = linkRefs rs links t := by
  unfold buildLinkedUrlsSet
  rw [luLookup_build]
  rfl

theorem luLookup_filterKey (m : LinksMap) (u t : String) :
    luLookup (m.filter (fun p => ¬p.1 = u)) t =
      if t = u then [] else luLookup m t := by
  induction m with
  | nil =>
    simp only [List.filter_nil, luLookup]
    split <;> rfl
  | cons p rest ih =>
    obtain ⟨k₀, vs⟩ := p
    by_cases h0 : k₀ = u <;> by_cases h1 : t = u <;> by_cases h2 : k₀ = t <;>
      simp_all [List.filter_cons, luLookup]

theorem luLookup_deleteAll (us : List String) (m : LinksMap) (t : String) :
    luLookup (us.foldl (fun m u => m.filter (fun p => ¬p.1 = u)) m) t =
      if t ∈ us then [] else luLookup m t := by
  induction us generalizing m with
  | nil => simp
  | cons u rest ih =>
    simp only [List.foldl_cons]
    rw [ih, luLookup_filterKey]
    by_cases h1 : t ∈ rest
    · simp [h1]
    · by_cases h2 : t = u
      · simp [h1, h2]
      · simp [h1, h2]

/-- The linking-URL list the expansion records for a target. -/
theorem luLookup_linkExpansion (rs : List HTTPResponse) (us : List String)
    (links : CrawlLinksConfig) (t : String) :
    luLookup (linkExpansion rs us links) t =
      if t ∈ us then [] else linkRefs rs links t := by
  unfold linkExpansion
  rw [luLookup_deleteAll, luLookup_buildLinkedUrlsSet]

theorem luAppend_vals (m : LinksMap) (k v : String)
    (h : ∀ p ∈ m, p.2 ≠ []) : ∀ p ∈ luAppend m k v, p.2 ≠ [] := by
  induction m with
  | nil =>
    intro p hp
    simp only [luAppend, List.mem_singleton] at hp
    subst hp
    simp
  | cons q rest ih =>
    obtain ⟨k₀, vs⟩ := q
    intro p hp
    simp only [luAppend] at hp
    by_cases h0 : k₀ = k
    · rw [if_pos h0] at hp
      rcases List.mem_cons.mp hp with h1 | h1
      · subst h1
        simp
      · exact h p (List.mem_cons_of_mem _ h1)
    · rw [if_neg h0] at hp
      rcases List.mem_cons.mp hp with h1 | h1
      · subst h1
        exact h ⟨k₀, vs⟩ (List.mem_cons_self _ _)
      · exact ih (fun q hq => h q (List.mem_cons_of_mem _ hq)) p h1

theorem foldLinks_vals (ls : List Link) (u : String)
    (links : CrawlLinksConfig) (m : LinksMap) (h : ∀ p ∈ m, p.2 ≠ []) :
    ∀ p ∈ ls.foldl (fun acc link =>
        if keepLink links link then luAppend acc link.TargetURL u else acc) m,
      p.2 ≠ [] := by
  induction ls generalizing m with
  | nil => exact h
  | cons l rest ih =>
    simp only [List.foldl_cons]
    by_cases hk : keepLink links l = true
    · rw [if_pos hk]
      exact ih _ (luAppend_vals m _ u h)
    · rw [if_neg hk]
      exact ih m h

theorem buildLinkedUrlsSet_vals (rs : List HTTPResponse)
    (links : CrawlLinksConfig) :
    ∀ p ∈ buildLinkedUrlsSet rs links, p.2 ≠ [] := by
  unfold buildLinkedUrlsSet
  generalize hgen : ([] : LinksMap) = m
  have hm : ∀ p ∈ m, p.2 ≠ [] := by
    rw [← hgen]
    intro p hp
    exact absurd hp (List.not_mem_nil p)
  clear hgen
  induction rs generalizing m with
  | nil => exact hm
  | cons r rest ih =>
    simp only [List.foldl_cons]
    exact ih _ (foldLinks_vals r.Links r.URL links m hm)

theorem linkExpansion_vals (rs : List HTTPResponse) (us : List String)
    (links : CrawlLinksConfig) :
    ∀ p ∈ linkExpansion rs us links, p.2 ≠ [] := by
  unfold linkExpansion
  generalize hgen : buildLinkedUrlsSet rs links = m
  have hm : ∀ p ∈ m, p.2 ≠ [] := hgen ▸ buildLinkedUrlsSet_vals rs links
  clear hgen
  induction us generalizing m with
  | nil => exact hm
  | cons u rest ih =>
    simp only [List.foldl_cons]
    refine ih _ ?_
    intro p hp
    exact hm p (List.mem_of_mem_filter hp)

theorem luLookup_eq_nil_of_not_mem (m : LinksMap) (t : String)
    (h : t ∉ m.map Prod.fst) : luLookup m t = [] := by
  induction m with
  | nil => rfl
  | cons p rest ih =>
    simp only [List.map_cons, List.mem_cons, not_or] at h
    rw [luLookup, if_neg (fun he => h.1 he.symm)]
    exact ih h.2

theorem mem_keys_iff_luLookup (m : LinksMap) (t : String)
    (hv : ∀ p ∈ m, p.2 ≠ []) :
    t ∈ m.map Prod.fst ↔ luLookup m t ≠ [] := by
  constructor
  · intro hmem
    induction m with
    | nil => exact absurd hmem (List.not_mem_nil t)
    | cons p rest ih =>
      rw [luLookup]
      by_cases h0 : p.1 = t
      · rw [if_pos h0]
        exact hv p (List.mem_cons_self _ _)
      · rw [if_neg h0]
        rcases List.mem_cons.mp hmem with h1 | h1
        · exact absurd h1.symm h0
        · exact ih (fun q hq => hv q (List.mem_cons_of_mem _ hq)) h1
  · intro hl
    by_contra hmem
    exact hl (luLookup_eq_nil_of_not_mem m t hmem)

theorem linkRefs_ne_nil_iff (rs : List HTTPResponse)
    (links : CrawlLinksConfig) (t : String) :
    linkRefs rs links t ≠ [] ↔
      ∃ r ∈ rs, ∃ l ∈ r.Links, keepLink links l = true ∧ l.TargetURL = t := by
  induction rs with
  | nil => simp [linkRefs]
  | cons r rest ih =>
    constructor
    · intro h
      simp only [linkRefs] at h
      by_cases hf : r.Links.filter
          (fun l => keepLink links l && (l.TargetURL == t)) = []
      · have hr : linkRefs rest links t ≠ [] := by
          intro hz
          apply h
          simp [hf, hz]
        obtain ⟨r', hr', l, hl, hkeep, ht⟩ := ih.mp hr
        exact ⟨r', List.mem_cons_of_mem _ hr', l, hl, hkeep, ht⟩
      · obtain ⟨l, hl⟩ := List.exists_mem_of_ne_nil _ hf
        have hl' := List.mem_filter.mp hl
        have hb := hl'.2
        rw [Bool.and_eq_true, beq_iff_eq] at hb
        exact ⟨r, List.mem_cons_self _ _, l, hl'.1, hb.1, hb.2⟩
    · rintro ⟨r', hr', l, hl, hkeep, ht⟩ habs
      simp only [linkRefs] at habs
      rw [List.append_eq_nil, List.map_eq_nil_iff] at habs
      rcases List.mem_cons.mp hr' with h1 | h1
      · subst h1
        have hmem : l ∈ r'.Links.filter
            (fun l => keepLink links l && (l.TargetURL == t)) := by
          rw [List.mem_filter]
          exact ⟨hl, by simp [hkeep, ht]⟩
        rw [habs.1] at hmem
        exact absurd hmem (List.not_mem_nil l)
      · exact (ih.mpr ⟨r', h1, l, hl, hkeep, ht⟩) habs.2

/-- C6: the link-expansion policy retains as second-phase candidates exactly
the targets referenced by some first-phase result through a link passing the
three filters and not already present in the first-phase input URL set, and
the linking-URL list it records for a retained target is the list of source
URLs of the results that referenced it (in order, one entry per reference). -/
theorem linkExpansion_spec (rs : List HTTPResponse) (us : List String)
    (links : CrawlLinksConfig) (t : String) :
    luLookup (linkExpansion rs us links) t =
      (if t ∈ us then [] else linkRefs rs links t) ∧
    (t ∈ (linkExpansion rs us links).map Prod.fst ↔
      (t ∉ us ∧ ∃ r ∈ rs, ∃ l ∈ r.Links,
        keepLink links l = true ∧ l.TargetURL = t)) := by
  refine ⟨luLookup_linkExpansion rs us links t, ?_⟩
  rw [mem_keys_iff_luLookup _ _ (linkExpansion_vals rs us links),
    luLookup_linkExpansion]
  by_cases hu : t ∈ us
  · simp [hu]
  · simp only [hu, if_false, not_false_iff, true_and]
    exact linkRefs_ne_nil_iff rs links t

end Crowlet
